import Mathlib

/-!
Verification of the netsurf916/proxy SOCKS5 proxy (Go) against its
natural-language specification.  Strings are modelled as lists of
naturals: every Go byte fed through the programs string operations is
widened to a single code point by the conversion string(char), so a
Go string appearing here is its list of code points.  File systems,
HTTP fetches and JSON decoding are passed in as explicit functions,
since they are external collaborators of the code under test.
-/

namespace Proxy

/-- Go strings.ToLower on one code point below 256: the Unicode simple
lowercase mapping sends A..Z and the Latin-1 letters 0xC0..0xDE except
the multiplication sign 0xD7 to the value 32 higher. -/
def lowerChar (c : Nat) : Nat :=
  if 65 ≤ c ∧ c ≤ 90 then c + 32
  else if 192 ≤ c ∧ c ≤ 222 ∧ c ≠ 215 then c + 32
  else c

/-- Go strings.ToLower over a whole string. -/
def goToLower (s : List Nat) : List Nat := s.map lowerChar

/-- filter.go: DomainEntry, one blacklist record. -/
structure DomainEntry where
  Name : List Nat
  Hits : Nat
deriving DecidableEq

/-- filter.go, DomainEntry.Matches: substr := len(item) - len(entry.Name);
if substr < 0 return false; item = item[substr:];
return strings.Compare(entry.Name, item) == 0. -/
def DomainEntry.Matches (entry : DomainEntry) (item : List Nat) : Bool :=
  if item.length < entry.Name.length then false
  else decide (entry.Name = item.drop (item.length - entry.Name.length))

/-- filter.go: Filter, a list of domains plus the remembered load path. -/
structure Filter where
  Domains : List DomainEntry
  FileName : List Nat
deriving DecidableEq

/-- The loop of filter.go, Filter.Matches: scan in stored order, stop at
the first entry whose Matches succeeds. -/
def matchesLoop (item : List Nat) : List DomainEntry → Bool
  | [] => false
  | e :: rest => if e.Matches item then true else matchesLoop item rest

/-- filter.go, Filter.Matches.  The Go loop is
for _, domainEntry := range ctx.Domains: range gives domainEntry as a
copy of the slice element, so the domainEntry.Hits++ executed on a match
increments that copy and the Domains slice of the receiver is unchanged;
the receiver state is therefore returned as is.  ToLower is applied to
the argument inside each iteration; it is pure, so it is hoisted here. -/
def Filter.Matches (f : Filter) (item : List Nat) : Filter × Bool :=
  (f, matchesLoop (goToLower item) f.Domains)

/-- filter.go, Filter.deduplicate: entry i is kept iff no entry at a
larger index j has domainEntry.Matches(domainEntryCompare.Name); the
inner loop ranges over ctx.Domains[i+1:] of the original slice, which is
exactly the tail of the list at the entry. -/
def dedupEntries : List DomainEntry → List DomainEntry
  | [] => []
  | e :: rest =>
    if rest.any (fun e2 => e.Matches e2.Name) then dedupEntries rest
    else e :: dedupEntries rest

/-- filter.go, Filter.deduplicate acting on the receiver. -/
def Filter.deduplicate (f : Filter) : Filter :=
  { f with Domains := dedupEntries f.Domains }

/-- filter.go, Filter.LoadFile.  The file system (collapsing the Open,
Stat and Read failure cases to none) and the JSON decoder (none on a
json.Unmarshal error) are explicit parameters.  The Go method assigns
ctx.FileName = file first, before any of the error checks. -/
def Filter.LoadFile (fs : List Nat → Option (List Nat))
    (decode : List Nat → Option (List DomainEntry))
    (f : Filter) (file : List Nat) : Filter × Bool :=
  let f1 : Filter := { f with FileName := file }
  match fs file with
  | none => (f1, false)
  | some data =>
    match decode data with
    | none => (f1, false)
    | some ds => (({ f1 with Domains := ds } : Filter).deduplicate, true)

/-- filter.go, character loop of LoadListFile and LoadHTTP (the two
bodies are verbatim copies): accumulate temp until an LF or CR byte;
at a separator a non-empty temp is lowercased and appended to the list,
an empty temp is skipped.  A final temp left when the data ends (a line
not terminated by LF or CR) is never flushed. -/
def lineSplit (temp : List Nat) (acc : List (List Nat)) :
    List Nat → List (List Nat)
  | [] => acc
  | c :: rest =>
    if c = 10 ∨ c = 13 then
      if temp = [] then lineSplit [] acc rest
      else lineSplit [] (acc ++ [goToLower temp]) rest
    else lineSplit (temp ++ [c]) acc rest

/-- Go strings.Trim(line, " ") on the left side. -/
def trimLeftSpace : List Nat → List Nat
  | [] => []
  | c :: rest => if c = 32 then trimLeftSpace rest else c :: rest

/-- Go strings.Trim(line, " "): drop leading and trailing spaces. -/
def trimSpace (l : List Nat) : List Nat :=
  (trimLeftSpace (trimLeftSpace l.reverse).reverse)

/-- Go strings.Split(l, sep) for a one-character separator: every
occurrence of the separator ends a segment, and the tail after the last
separator is the final segment, so the result is never empty. -/
def splitSegs (sep : Nat) : List Nat → List (List Nat)
  | [] => [[]]
  | c :: rest =>
    if c = sep then [] :: splitSegs sep rest
    else
      match splitSegs sep rest with
      | [] => [[c]]
      | s :: ss => (c :: s) :: ss

/-- filter.go, per-line loop of LoadListFile and LoadHTTP.  Each line is
trimmed of spaces and lowercased; then line[0] is read for the comment
test, which in Go is an out-of-range index (a run-time panic) when the
trimmed line is empty; Except.error marks that panic.  Otherwise a
comment line is skipped, the last space-separated field is taken when
there is more than one, and a DomainEntry with zero hits is appended. -/
def processLines (domains : List DomainEntry) :
    List (List Nat) → Except Unit (List DomainEntry)
  | [] => .ok domains
  | line :: rest =>
    if line = [] then processLines domains rest
    else
      let t := goToLower (trimSpace line)
      if t = [] then .error ()
      else if t.headI = 35 then processLines domains rest
      else
        let fields := splitSegs 32 t
        let host := if 1 < fields.length then fields.getLastI else t
        processLines (domains ++ [⟨host, 0⟩]) rest

/-- filter.go, shared body of LoadListFile and LoadHTTP once the data
bytes have been fetched: split into lines, process each line appending
to the Domains of the receiver, then deduplicate.  The returned number
is the count variable, incremented once per flushed line. -/
def ingestLines (f : Filter) (data : List Nat) :
    Except Unit (Filter × Nat) :=
  let lines := lineSplit [] [] data
  match processLines f.Domains lines with
  | .error () => .error ()
  | .ok ds => .ok ({ f with Domains := dedupEntries ds }, lines.length)

/-- filter.go, Filter.LoadListFile with the file system explicit.  An
Open, Stat or Read error returns (false, 0) leaving the receiver alone;
Except.error marks the panic of the per-line loop. -/
def Filter.LoadListFile (fs : List Nat → Option (List Nat))
    (f : Filter) (file : List Nat) :
    Except Unit (Filter × Bool × Nat) :=
  match fs file with
  | none => .ok (f, false, 0)
  | some data =>
    match ingestLines f data with
    | .error () => .error ()
    | .ok (f2, count) => .ok (f2, true, count)

/-- filter.go, Filter.LoadHTTP: the body is a verbatim copy of the one
of LoadListFile with http.Get plus ReadAll in place of the file read. -/
def Filter.LoadHTTP (fetch : List Nat → Option (List Nat))
    (f : Filter) (url : List Nat) :
    Except Unit (Filter × Bool × Nat) :=
  match fetch url with
  | none => .ok (f, false, 0)
  | some body =>
    match ingestLines f body with
    | .error () => .error ()
    | .ok (f2, count) => .ok (f2, true, count)

/-- socks5.go, loop of Connection.CopyData with the successive results
of io.Copy given as a list of pairs (n, isErr): io.Copy returns the
bytes it moved and whether it stopped on an error (isErr = true) or on
EOF (isErr = false).  The loop exits without counting n when isErr or
n <= 0 holds, and otherwise adds n to the uint64 ReadCount of the
source connection (wrapping modulo 2^64) and calls io.Copy again. -/
def copyData (readCount : Nat) : List (Nat × Bool) → Nat
  | [] => readCount
  | (n, isErr) :: rest =>
    if isErr ∨ n = 0 then readCount
    else copyData ((readCount + n) % 2 ^ 64) rest

/-- The bytes the CopyData loop actually counts: the n of every leading
error-free io.Copy result with n > 0; the result that stops the loop
(an error or a zero count) and everything after it contribute nothing. -/
def countedBytes : List (Nat × Bool) → Nat
  | [] => 0
  | (n, isErr) :: rest =>
    if isErr ∨ n = 0 then 0 else n + countedBytes rest

/-- Go strconv.Itoa for the non-negative values fed to it here:
decimal digits as code points. -/
def itoa (n : Nat) : List Nat := (Nat.toDigits 10 n).map Char.toNat

/-- Go hex.EncodeToString([]byte{data}): two lowercase hex digits. -/
def hexDigit (d : Nat) : Nat := if d < 10 then 48 + d else 87 + d

/-- Two-digit lowercase hex rendering of one byte. -/
def hexPair (n : Nat) : List Nat := [hexDigit (n / 16), hexDigit (n % 16)]

/-- socks5.go, port re-encoding used by processOutbound:
byte((port >> 8) & 0xFF) followed by byte(port & 0xFF). -/
def portBytes (p : Nat) : List Nat := [p / 256 % 256, p % 256]

/-- State of the processInbound state machine of socks5.go: the state
and store integer variables, RequestData of the ClientCtx, Host and
Port of the Remote connection, the bytes written to the client, and
whether err is non-nil.  store is an Int because Go decrements it below
zero in state 10 when the domain length byte was zero. -/
structure IState where
  state : Nat
  store : Int
  requestData : List Nat
  host : List Nat
  port : Nat
  output : List Nat
  err : Bool
deriving DecidableEq

/-- One switch dispatch of socks5.go, processInbound, on one byte read
from the client.  Protocol violations set err and state 13, as in the
source.  States 2 and 3 share the write of the 05 00 method reply
through a fallthrough; writes and flushes are modelled as never
failing, their bytes collected in output. -/
def inboundStep (s : IState) (data : Nat) : IState :=
  match s.state with
  | 0 =>
    if data = 5 then { s with state := 1 } else { s with state := 13, err := true }
  | 1 =>
    if 0 < data then { s with store := (data : Int), state := 2 }
    else { s with state := 13, err := true }
  | 2 =>
    let store := s.store - 1
    if 0 < store then { s with store := store }
    else { s with store := store, output := s.output ++ [5, 0], state := 4 }
  | 3 => { s with output := s.output ++ [5, 0], state := 4 }
  | 4 =>
    if data = 5 then { s with state := 5 } else { s with state := 13, err := true }
  | 5 =>
    if data = 1 then { s with state := 6 } else { s with state := 13, err := true }
  | 6 => { s with requestData := s.requestData ++ [data], state := 7 }
  | 7 =>
    let s : IState := { s with requestData := s.requestData ++ [data] }
    if data = 1 then { s with store := 4, state := 8 }
    else if data = 3 then { s with store := 0, state := 9 }
    else if data = 4 then { s with store := 16, state := 11 }
    else s
  | 8 =>
    let s : IState := { s with
      requestData := s.requestData ++ [data],
      store := s.store - 1, host := s.host ++ itoa data }
    if s.store = 0 then { s with store := 2, state := 12 }
    else { s with host := s.host ++ [46] }
  | 9 => { s with requestData := s.requestData ++ [data],
                  store := (data : Int), state := 10 }
  | 10 =>
    let s : IState := { s with
      requestData := s.requestData ++ [data],
      store := s.store - 1, host := s.host ++ [data] }
    if s.store = 0 then { s with store := 2, state := 12 } else s
  | 11 =>
    let s : IState := { s with
      requestData := s.requestData ++ [data],
      store := s.store - 1, host := s.host ++ hexPair data }
    let s : IState := if 0 < s.store ∧ s.store % 2 = 0 then { s with host := s.host ++ [58] } else s
    if s.store = 0 then { s with store := 2, state := 12 } else s
  | 12 =>
    let s : IState := { s with port := s.port * 256 + data, store := s.store - 1 }
    if s.store = 0 then { s with state := 13 } else s
  | _ => s

/-- socks5.go, processInbound driven by a list of client bytes: while
state < 13 read one byte and dispatch; reaching the end of the input
inside the loop is the ReadByte error path, which breaks with err set.
Returns the final state and the unconsumed input. -/
def runInbound (s : IState) : List Nat → IState × List Nat
  | [] => if s.state < 13 then ({ s with err := true }, []) else (s, [])
  | d :: rest =>
    if s.state < 13 then runInbound (inboundStep s d) rest
    else (s, d :: rest)

/-- The zero ClientCtx at the start of processInbound. -/
def initInbound : IState :=
  { state := 0, store := 0, requestData := [], host := [],
    port := 0, output := [], err := false }

/-- socks5.go, processOutbound: authType is 2 when the username or the
password of the selected proxy descriptor is non-empty, else 0. -/
def authTypeOf (user pass : List Nat) : Nat :=
  if 0 < user.length ∨ 0 < pass.length then 2 else 0

/-- State of the processOutbound upstream state machine of socks5.go:
state and store, the response bytes collected from the upstream reply,
the bytes written to the upstream, and whether err is non-nil. -/
structure OState where
  state : Nat
  store : Int
  response : List Nat
  upWrites : List Nat
  err : Bool
deriving DecidableEq

/-- One switch dispatch of the processOutbound loop of socks5.go on one
byte read from the upstream.  In the source, case 1 (method byte equal
to authType) sets state 2 and falls through into case 2, so the
username and password sub-negotiation message 01 uLen user pLen pass is
written even when authType is 0; case 4 (auth status 0) falls through
into case 5, which writes 05 01, the saved RequestData and the two port
bytes.  Writes and flushes are modelled as never failing. -/
def outboundStep (auth : Nat) (user pass reqData : List Nat) (port : Nat)
    (s : OState) (data : Nat) : OState :=
  match s.state with
  | 0 =>
    if data = 5 then { s with state := 1 } else { s with state := 15, err := true }
  | 1 =>
    if data = auth then
      { s with state := 3,
               upWrites := s.upWrites ++ [1, user.length % 256] ++ user
                 ++ [pass.length % 256] ++ pass }
    else { s with state := 15, err := true }
  | 2 =>
    { s with state := 3,
             upWrites := s.upWrites ++ [1, user.length % 256] ++ user
               ++ [pass.length % 256] ++ pass }
  | 3 =>
    if data = 1 then { s with state := 4 } else { s with state := 15, err := true }
  | 4 =>
    if data = 0 then
      { s with state := 6,
               upWrites := s.upWrites ++ [5, 1] ++ reqData ++ portBytes port }
    else { s with state := 15, err := true }
  | 5 =>
    { s with state := 6,
             upWrites := s.upWrites ++ [5, 1] ++ reqData ++ portBytes port }
  | 6 =>
    if data = 5 then { s with state := 7 } else { s with state := 15, err := true }
  | 7 =>
    if data = 0 then { s with state := 8 } else { s with state := 15, err := true }
  | 8 => { s with response := s.response ++ [data], state := 9 }
  | 9 =>
    let s : OState := { s with response := s.response ++ [data] }
    if data = 1 then { s with store := 4, state := 10 }
    else if data = 3 then { s with store := 0, state := 11 }
    else if data = 4 then { s with store := 16, state := 13 }
    else s
  | 10 =>
    let s : OState := { s with response := s.response ++ [data], store := s.store - 1 }
    if s.store = 0 then { s with store := 2, state := 14 } else s
  | 11 => { s with response := s.response ++ [data], store := (data : Int), state := 12 }
  | 12 =>
    let s : OState := { s with response := s.response ++ [data], store := s.store - 1 }
    if s.store = 0 then { s with store := 2, state := 14 } else s
  | 13 =>
    let s : OState := { s with response := s.response ++ [data], store := s.store - 1 }
    if s.store = 0 then { s with store := 2, state := 14 } else s
  | 14 =>
    let s : OState := { s with response := s.response ++ [data], store := s.store - 1 }
    if s.store = 0 then { s with state := 15 } else s
  | _ => s

/-- socks5.go, the processOutbound upstream loop driven by a list of
upstream bytes: while state < 15 read one byte and dispatch; running
out of input is the ReadByte error path, which breaks with err set. -/
def runOutbound (auth : Nat) (user pass reqData : List Nat) (port : Nat)
    (s : OState) : List Nat → OState × List Nat
  | [] => if s.state < 15 then ({ s with err := true }, []) else (s, [])
  | d :: rest =>
    if s.state < 15 then
      runOutbound auth user pass reqData port
        (outboundStep auth user pass reqData port s d) rest
    else (s, d :: rest)

/-- socks5.go, relayed branch of processOutbound once the upstream is
dialed: choose authType from the descriptor credentials, write the
greeting 05 01 authType to the upstream, then run the state machine on
the upstream reply bytes. -/
def outboundRelay (user pass reqData : List Nat) (port : Nat)
    (input : List Nat) : OState × List Nat :=
  let auth := authTypeOf user pass
  runOutbound auth user pass reqData port
    { state := 0, store := 0, response := [],
      upWrites := [5, 1, auth], err := false } input

/-- Lookup as the specification words it, used to exhibit the hit
counter divergence: scan in stored order and on the first hit return
the stored sequence with the Hits of that entry incremented. -/
def specIncrementFirst (item : List Nat) :
    List DomainEntry → List DomainEntry × Bool
  | [] => ([], false)
  | e :: rest =>
    if e.Matches item then ({ e with Hits := e.Hits + 1 } :: rest, true)
    else
      let r := specIncrementFirst item rest
      (e :: r.1, r.2)

/-- Filter lookup following the specification sentence: on first hit,
increment the counter of that entry and return blocked. -/
def specLookup (f : Filter) (item : List Nat) : Filter × Bool :=
  let r := specIncrementFirst (goToLower item) f.Domains
  ({ f with Domains := r.1 }, r.2)

/-- Splitting on a class of separator characters, every separator
ending a segment and the tail after the last separator being the final
segment; the result is never empty. -/
def splitSegsP (p : Nat → Bool) : List Nat → List (List Nat)
  | [] => [[]]
  | c :: rest =>
    if p c then [] :: splitSegsP p rest
    else
      match splitSegsP p rest with
      | [] => [[c]]
      | s :: ss => (c :: s) :: ss

/-- LF or CR, the line separators of the ingest formats. -/
def isLineSep (c : Nat) : Bool := c = 10 ∨ c = 13

/-- Line splitting as the specification words it, amended by what the
character loop of the source does with a trailing fragment: split the
input on LF or CR, discard the final segment (the part after the last
separator, which the source never flushes), discard empty segments and
lowercase the survivors. -/
def specLines (data : List Nat) : List (List Nat) :=
  (((splitSegsP isLineSep data).dropLast).filter (fun l => !l.isEmpty)).map goToLower

/-- Per-line host extraction as the specification words it: trim ASCII
spaces, skip the line when its first byte is the comment character 35,
split on the space character 32 and keep the last field when there is
more than one.  A line that trims to nothing is returned as none here;
the source panics on it instead, which the ingest theorems track
separately. -/
def specHostOfLine (line : List Nat) : Option (List Nat) :=
  let t := trimSpace (goToLower line)
  if t = [] then none
  else if t.headI = 35 then none
  else
    let fields := splitSegs 32 t
    some (if 1 < fields.length then fields.getLastI else t)

/-- The entries the line-format ingest appends, as the specification
words it (amended): one entry with zero hits per surviving line. -/
def specIngest (data : List Nat) : List DomainEntry :=
  (specLines data).filterMap
    (fun l => (specHostOfLine l).map (fun h => ⟨h, 0⟩))

/-- Deduplication as the specification words it: the entry at original
index i is dropped iff some entry at an index j > i of the original
sequence has its name suffix-matched by entry i; survivors appear in
index order. -/
def specDedup (l : List DomainEntry) : List DomainEntry :=
  (List.range l.length).filterMap (fun i =>
    match l[i]? with
    | none => none
    | some e =>
      if (l.drop (i + 1)).any (fun e2 => e.Matches e2.Name) then none
      else some e)

/-- Prefix the first segment of a non-empty segment list: the running
temp buffer of the character loop belongs to the segment being built. -/
def prependFirst (t : List Nat) : List (List Nat) → List (List Nat)
  | [] => [t]
  | s :: ss => (t ++ s) :: ss

/-! ## Theorems -/

/-- The suffix rule, read off the entry matcher. -/
theorem domainEntry_matches_iff (e : DomainEntry) (q : List Nat) :
    e.Matches q = true ↔
      e.Name.length ≤ q.length ∧ q.drop (q.length - e.Name.length) = e.Name := by
  unfold DomainEntry.Matches
  split
  · next hlt =>
    simp only [Bool.false_eq_true, false_iff, not_and]
    intro hle
    omega
  · next hge =>
    simp only [decide_eq_true_eq]
    constructor
    · intro hEq
      exact ⟨by omega, hEq.symm⟩
    · intro hc
      exact hc.2.symm

/-- The filter loop finds a match exactly when some entry matches. -/
theorem matchesLoop_iff (item : List Nat) (l : List DomainEntry) :
    matchesLoop item l = true ↔ ∃ e ∈ l, e.Matches item = true := by
  induction l with
  | nil => simp [matchesLoop]
  | cons e rest ih =>
    unfold matchesLoop
    by_cases hm : e.Matches item = true
    · rw [if_pos hm]
      simp only [true_iff]
      exact ⟨e, List.mem_cons_self e rest, hm⟩
    · rw [if_neg hm, ih]
      constructor
      · rintro ⟨e2, h2, h3⟩
        exact ⟨e2, List.mem_cons_of_mem e h2, h3⟩
      · rintro ⟨e2, h2, h3⟩
        rcases List.mem_cons.mp h2 with h2 | h2
        · exact absurd h3 (h2 ▸ hm)
        · exact ⟨e2, h2, h3⟩

/-- C1: an entry matches a query string iff the query is at least as
long and its last Name-length code points equal the entry name; the
filter lookup answers true iff some stored entry matches the lowercased
query under that rule; and the rule has no dot boundary, so the entry
badhost.com matches the query xbadhost.com. -/
theorem suffix_match_rule (e : DomainEntry) (q : List Nat) (f : Filter) (h : List Nat) :
    (e.Matches q = true ↔
      e.Name.length ≤ q.length ∧ q.drop (q.length - e.Name.length) = e.Name)
    ∧ ((f.Matches h).2 = true ↔
      ∃ e2 ∈ f.Domains,
        e2.Name.length ≤ (goToLower h).length ∧
        (goToLower h).drop ((goToLower h).length - e2.Name.length) = e2.Name)
    ∧ DomainEntry.Matches ⟨[98, 97, 100, 104, 111, 115, 116, 46, 99, 111, 109], 0⟩
        [120, 98, 97, 100, 104, 111, 115, 116, 46, 99, 111, 109] = true := by
  refine ⟨domainEntry_matches_iff e q, ?_, by decide⟩
  show matchesLoop (goToLower h) f.Domains = true ↔ _
  rw [matchesLoop_iff]
  constructor
  · rintro ⟨e2, h2, h3⟩
    exact ⟨e2, h2, (domainEntry_matches_iff e2 (goToLower h)).mp h3⟩
  · rintro ⟨e2, h2, h3⟩
    exact ⟨e2, h2, (domainEntry_matches_iff e2 (goToLower h)).mpr h3⟩

/-- Deduplication only ever keeps existing entries, in order. -/
theorem dedupEntries_sublist (l : List DomainEntry) :
    List.Sublist (dedupEntries l) l := by
  induction l with
  | nil => exact List.Sublist.refl []
  | cons e rest ih =>
    unfold dedupEntries
    split
    · exact ih.cons e
    · exact ih.cons₂ e

/-- One unfolding of the index-based deduplication. -/
theorem specDedup_cons (e : DomainEntry) (rest : List DomainEntry) :
    specDedup (e :: rest)
      = (if rest.any (fun e2 => e.Matches e2.Name) then [] else [e])
        ++ specDedup rest := by
  unfold specDedup
  rw [List.length_cons, List.range_succ_eq_map, List.filterMap_cons,
    List.filterMap_map]
  have hcomp :
      ((fun i =>
          match (e :: rest)[i]? with
          | none => none
          | some a =>
            if (List.drop (i + 1) (e :: rest)).any (fun e2 => a.Matches e2.Name)
            then none else some a) ∘ Nat.succ)
      = (fun i =>
          match rest[i]? with
          | none => none
          | some a =>
            if (List.drop (i + 1) rest).any (fun e2 => a.Matches e2.Name)
            then none else some a) := by
    funext i
    simp only [Function.comp_apply, Nat.succ_eq_add_one, List.getElem?_cons_succ,
      List.drop_succ_cons]
  rw [hcomp]
  by_cases hany : rest.any (fun e2 => e.Matches e2.Name) = true
  · simp [hany]
  · simp [hany]

/-- C3: deduplication keeps the entry at index i iff no entry at a
larger index j of the original sequence has its name suffix-matched by
entry i, keeping survivors in order (so the later duplicate survives);
and in the result no surviving entry suffix-matches the name of any
later surviving entry. -/
theorem deduplicate_spec (l : List DomainEntry) :
    dedupEntries l = specDedup l
    ∧ List.Pairwise (fun a b => a.Matches b.Name = false) (dedupEntries l) := by
  constructor
  · induction l with
    | nil => rfl
    | cons e rest ih =>
      rw [specDedup_cons]
      unfold dedupEntries
      by_cases hany : rest.any (fun e2 => e.Matches e2.Name) = true
      · rw [if_pos hany, if_pos hany, ih, List.nil_append]
      · rw [if_neg hany, if_neg hany, ih, List.singleton_append]
  · induction l with
    | nil => exact List.Pairwise.nil
    | cons e rest ih =>
      unfold dedupEntries
      split
      · exact ih
      · next hany =>
        refine List.Pairwise.cons ?_ ih
        intro b hb
        have hbrest : b ∈ rest := (dedupEntries_sublist rest).subset hb
        cases hEb : e.Matches b.Name with
        | false => rfl
        | true => exact absurd (List.any_eq_true.mpr ⟨b, hbrest, hEb⟩) hany

/-- C2 (code evaluation at the failing input): on a query matching the
single stored entry, Filter.Matches returns true but leaves the stored
Hits at 0, because the increment in the source acts on the range-loop
copy of the entry; the lookup the specification describes, specLookup,
returns the same answer with the stored Hits raised to 1. -/
theorem lookup_hits_lost :
    Filter.Matches ⟨[⟨[97, 46, 99, 111, 109], 0⟩], []⟩ [97, 46, 99, 111, 109]
      = (⟨[⟨[97, 46, 99, 111, 109], 0⟩], []⟩, true)
    ∧ specLookup ⟨[⟨[97, 46, 99, 111, 109], 0⟩], []⟩ [97, 46, 99, 111, 109]
      = (⟨[⟨[97, 46, 99, 111, 109], 1⟩], []⟩, true) := by
  exact ⟨rfl, rfl⟩

/-- C5 (code evaluation at the failing input): authType is 0 exactly
when both credentials are empty and 2 otherwise; but with empty
credentials, after the upstream answers 05 00 the engine still writes
the RFC 1929 message 01 00 00 and then waits: with no further upstream
bytes it errors out without ever sending the CONNECT, and when the
upstream does answer the sub-negotiation with 01 00 the CONNECT
05 01 reqData port is sent only after that exchange.  The
specification instead requires the sub-negotiation to be skipped and
the CONNECT sent immediately when authType is 0. -/
theorem outbound_auth_not_skipped :
    (∀ user pass : List Nat, authTypeOf user pass = 2 ↔ user ≠ [] ∨ pass ≠ [])
    ∧ authTypeOf [] [] = 0
    ∧ (outboundRelay [] [] [0, 1, 9, 9, 9, 9] 443 [5, 0]).1.err = true
    ∧ (outboundRelay [] [] [0, 1, 9, 9, 9, 9] 443 [5, 0]).1.upWrites
      = [5, 1, 0, 1, 0, 0]
    ∧ (outboundRelay [] [] [0, 1, 9, 9, 9, 9] 443 [5, 0, 1, 0]).1.upWrites
      = [5, 1, 0] ++ [1, 0, 0] ++ [5, 1] ++ [0, 1, 9, 9, 9, 9] ++ [1, 187] := by
  refine ⟨?_, rfl, by decide, by decide, by decide⟩
  intro user pass
  unfold authTypeOf
  by_cases h1 : 0 < user.length ∨ 0 < pass.length
  · rw [if_pos h1]
    constructor
    · intro _
      rcases h1 with h | h
      · exact Or.inl (List.ne_nil_of_length_pos h)
      · exact Or.inr (List.ne_nil_of_length_pos h)
    · intro _
      rfl
  · rw [if_neg h1]
    constructor
    · intro h2
      exact absurd h2 (by decide)
    · intro h2
      exfalso
      apply h1
      rcases h2 with h | h
      · exact Or.inl (List.length_pos.mpr h)
      · exact Or.inr (List.length_pos.mpr h)

/-- C9 (code evaluation at the failing input): on a CONNECT whose
domain ATYP carries a length byte of 0, the parser enters the domain
state with store 0, decrements it to -1, and the exit test never
fires: the two port bytes are consumed as domain characters into the
host, the parse never completes (state stays 10) and it ends with a
read error once the input is exhausted, against the specified empty
host and completion after exactly the two port bytes. -/
theorem inbound_domain_len0 :
    (runInbound initInbound [5, 1, 0, 5, 1, 0, 3, 0, 1, 187]).1.err = true
    ∧ (runInbound initInbound [5, 1, 0, 5, 1, 0, 3, 0, 1, 187]).1.state = 10
    ∧ (runInbound initInbound [5, 1, 0, 5, 1, 0, 3, 0, 1, 187]).1.host = [1, 187]
    ∧ (runInbound initInbound [5, 1, 0, 5, 1, 0, 3, 0, 1, 187]).1.requestData
      = [0, 3, 0, 1, 187]
    ∧ (runInbound initInbound [5, 1, 0, 5, 1, 0, 3, 0, 1, 187]).2 = [] := by
  exact ⟨rfl, rfl, rfl, rfl, rfl⟩

/-- C6 (counterexample): LoadFile on a failing open returns false but
the remembered load path of the matcher has changed, so the matcher
state is not exactly what it was before the call. -/
theorem loadFile_failure_cex :
    (Filter.LoadFile (fun _ => none) (fun _ => none) ⟨[], [111]⟩ [109]).2 = false
    ∧ (Filter.LoadFile (fun _ => none) (fun _ => none) ⟨[], [111]⟩ [109]).1
      ≠ (⟨[], [111]⟩ : Filter) := by
  exact ⟨rfl, by decide⟩

/-- C6 amended: when the file system fails (open, stat or read) or the
JSON decode fails, LoadFile returns false and leaves the entry
sequence unchanged, but the remembered load path has already been set
to the argument, since the source assigns ctx.FileName before any
error check. -/
theorem loadFile_failure (fs : List Nat → Option (List Nat))
    (decode : List Nat → Option (List DomainEntry))
    (f : Filter) (file : List Nat)
    (hfail : fs file = none ∨ ∃ d, fs file = some d ∧ decode d = none) :
    Filter.LoadFile fs decode f file = ({ f with FileName := file }, false) := by
  rcases hfail with h | ⟨d, hd, hdec⟩
  · simp [Filter.LoadFile, h]
  · simp [Filter.LoadFile, hd, hdec]

/-- Witness for the C6 amended theorem at a concrete failing input. -/
theorem loadFile_failure_witness :
    Filter.LoadFile (fun _ => none) (fun _ => none) ⟨[], [111]⟩ [109]
      = (⟨[], [109]⟩, false) :=
  loadFile_failure _ _ _ _ (Or.inl rfl)

/-- C8 (counterexample): an io.Copy call that moves 5 bytes and then
reports an error contributes nothing to ReadCount, so the counter is
not incremented by the number of bytes transferred on error. -/
theorem copyData_error_cex :
    copyData 0 [(5, true)] = 0 ∧ copyData 0 [(5, true)] ≠ 5 := by
  exact ⟨rfl, by decide⟩

/-- The clean-termination shape of a splice direction: error-free
chunks followed by the EOF result of io.Copy count exactly their sum. -/
theorem countedBytes_clean (chunks : List (Nat × Bool))
    (h : ∀ c ∈ chunks, c.2 = false ∧ c.1 ≠ 0) :
    countedBytes (chunks ++ [(0, false)]) = (chunks.map Prod.fst).sum := by
  induction chunks with
  | nil => rfl
  | cons c tl ih =>
    obtain ⟨h1, h2⟩ := h c (List.mem_cons_self c tl)
    obtain ⟨n, e⟩ := c
    simp only at h1 h2
    subst h1
    rw [List.cons_append]
    unfold countedBytes
    rw [if_neg (by simp [h2])]
    rw [ih (fun c hc => h c (List.mem_cons_of_mem _ hc))]
    simp

/-- C8 amended: the CopyData loop adds to the uint64 ReadCount of the
source exactly the bytes of the leading error-free non-empty io.Copy
results; the bytes moved by a call that returns an error are dropped.
Consequently a direction that ends by EOF (error-free chunks followed
by a zero-byte EOF result) counts exactly the bytes written to the
sink, which is the session accounting the specification states for
successful sessions. -/
theorem copyData_amended (calls : List (Nat × Bool)) (rc : Nat)
    (hrc : rc < 2 ^ 64) :
    copyData rc calls = (rc + countedBytes calls) % 2 ^ 64
    ∧ (∀ chunks : List (Nat × Bool), calls = chunks ++ [(0, false)] →
        (∀ c ∈ chunks, c.2 = false ∧ c.1 ≠ 0) →
        copyData rc calls = (rc + (chunks.map Prod.fst).sum) % 2 ^ 64) := by
  have main : ∀ (calls : List (Nat × Bool)) (rc : Nat), rc < 2 ^ 64 →
      copyData rc calls = (rc + countedBytes calls) % 2 ^ 64 := by
    intro calls
    induction calls with
    | nil =>
      intro rc hrc
      unfold copyData countedBytes
      rw [Nat.add_zero, Nat.mod_eq_of_lt hrc]
    | cons c rest ih =>
      intro rc hrc
      obtain ⟨n, e⟩ := c
      unfold copyData countedBytes
      by_cases hstop : e = true ∨ n = 0
      · rw [if_pos hstop, if_pos hstop, Nat.add_zero, Nat.mod_eq_of_lt hrc]
      · rw [if_neg hstop, if_neg hstop]
        rw [ih ((rc + n) % 2 ^ 64) (Nat.mod_lt _ (by norm_num))]
        rw [Nat.mod_add_mod, Nat.add_assoc]
  refine ⟨main calls rc hrc, ?_⟩
  intro chunks hshape hclean
  rw [main calls rc hrc, hshape, countedBytes_clean chunks hclean]

/-- Witness for the C8 amended theorem at a concrete call sequence. -/
theorem copyData_amended_witness :
    copyData 7 [(5, false), (3, false), (0, false)]
      = (7 + countedBytes [(5, false), (3, false), (0, false)]) % 2 ^ 64
    ∧ copyData 7 [(5, false), (3, false), (0, false)]
      = (7 + ([(5, false), (3, false)].map Prod.fst).sum) % 2 ^ 64 := by
  refine ⟨(copyData_amended [(5, false), (3, false), (0, false)] 7 (by norm_num)).1, ?_⟩
  exact (copyData_amended [(5, false), (3, false), (0, false)] 7 (by norm_num)).2
    [(5, false), (3, false)] rfl (by decide)

/-- One loop iteration of the inbound machine in a running state. -/
theorem runInbound_cons (s : IState) (d : Nat) (rest : List Nat) (hs : s.state < 13) :
    runInbound s (d :: rest) = runInbound (inboundStep s d) rest := by
  rw [runInbound]
  rw [if_pos hs]

/-- The inbound machine in a terminal state consumes nothing. -/
theorem runInbound_terminal (s : IState) (hs : ¬ s.state < 13) (l : List Nat) :
    runInbound s l = (s, l) := by
  cases l with
  | nil => rw [runInbound, if_neg hs]
  | cons d rest => rw [runInbound, if_neg hs]

/-- States 1 and 2: the method count and the method bytes, ending with
the 05 00 reply written through the fallthrough into state 3. -/
theorem methods_phase : ∀ (ms : List Nat), ms ≠ [] →
    ∀ (rd host : List Nat) (port : Nat) (out rest : List Nat),
    runInbound ⟨2, (ms.length : Int), rd, host, port, out, false⟩ (ms ++ rest)
      = runInbound ⟨4, 0, rd, host, port, out ++ [5, 0], false⟩ rest := by
  intro ms
  induction ms with
  | nil => intro h; exact absurd rfl h
  | cons m tl ih =>
    intro _ rd host port out rest
    rw [List.cons_append, runInbound_cons _ _ _ (show (2 : Nat) < 13 by norm_num)]
    cases tl with
    | nil =>
      rw [List.nil_append]
      congr 1
    | cons m2 tl2 =>
      have hstep : inboundStep ⟨2, ((m :: m2 :: tl2).length : Int), rd, host, port, out, false⟩ m
          = ⟨2, ((m2 :: tl2).length : Int), rd, host, port, out, false⟩ := by
        simp only [inboundStep]
        rw [if_pos (show (0 : Int) < ((m :: m2 :: tl2).length : Int) - 1 from by
          push_cast [List.length_cons]; omega)]
        congr 1
        push_cast [List.length_cons]
        ring
      rw [hstep]
      exact ih (by simp) rd host port out rest

/-- States 4 to 6: request version, CONNECT command, reserved byte. -/
theorem request_head_phase (rsv : Nat) (rd host : List Nat) (port : Nat)
    (out rest : List Nat) :
    runInbound ⟨4, 0, rd, host, port, out, false⟩ (5 :: 1 :: rsv :: rest)
      = runInbound ⟨7, 0, rd ++ [rsv], host, port, out, false⟩ rest := by
  rw [runInbound_cons _ _ _ (show (4 : Nat) < 13 by norm_num)]
  rw [show inboundStep ⟨4, 0, rd, host, port, out, false⟩ 5
      = ⟨5, 0, rd, host, port, out, false⟩ from by norm_num [inboundStep]]
  rw [runInbound_cons _ _ _ (show (5 : Nat) < 13 by norm_num)]
  rw [show inboundStep ⟨5, 0, rd, host, port, out, false⟩ 1
      = ⟨6, 0, rd, host, port, out, false⟩ from by norm_num [inboundStep]]
  rw [runInbound_cons _ _ _ (show (6 : Nat) < 13 by norm_num)]
  rw [show inboundStep ⟨6, 0, rd, host, port, out, false⟩ rsv
      = ⟨7, 0, rd ++ [rsv], host, port, out, false⟩ from by norm_num [inboundStep]]

/-- State 8: the four IPv4 octets, appended to the request data while
the host accumulates a dotted rendering. -/
theorem ipv4_phase : ∀ (bs : List Nat), bs ≠ [] →
    ∀ (rd host : List Nat) (port : Nat) (out rest : List Nat),
    ∃ host2,
      runInbound ⟨8, (bs.length : Int), rd, host, port, out, false⟩ (bs ++ rest)
        = runInbound ⟨12, 2, rd ++ bs, host2, port, out, false⟩ rest := by
  intro bs
  induction bs with
  | nil => intro h; exact absurd rfl h
  | cons b tl ih =>
    intro _ rd host port out rest
    rw [List.cons_append, runInbound_cons _ _ _ (show (8 : Nat) < 13 by norm_num)]
    cases tl with
    | nil =>
      refine ⟨host ++ itoa b, ?_⟩
      rw [List.nil_append]
      congr 1
    | cons b2 tl2 =>
      have hstep : inboundStep ⟨8, ((b :: b2 :: tl2).length : Int), rd, host, port, out, false⟩ b
          = ⟨8, ((b2 :: tl2).length : Int), rd ++ [b], host ++ itoa b ++ [46], port, out, false⟩ := by
        simp only [inboundStep]
        rw [if_neg (show ¬ ((b :: b2 :: tl2).length : Int) - 1 = 0 from by
          push_cast [List.length_cons]; omega)]
        congr 1
        push_cast [List.length_cons]
        ring
      rw [hstep]
      obtain ⟨host2, hrun⟩ := ih (by simp) (rd ++ [b]) (host ++ itoa b ++ [46]) port out rest
      refine ⟨host2, ?_⟩
      rw [hrun, ← List.append_cons rd b (b2 :: tl2)]

/-- State 10: the domain bytes, appended to the request data and to the
host verbatim. -/
theorem domain_phase : ∀ (dom : List Nat), dom ≠ [] →
    ∀ (rd host : List Nat) (port : Nat) (out rest : List Nat),
    runInbound ⟨10, (dom.length : Int), rd, host, port, out, false⟩ (dom ++ rest)
      = runInbound ⟨12, 2, rd ++ dom, host ++ dom, port, out, false⟩ rest := by
  intro dom
  induction dom with
  | nil => intro h; exact absurd rfl h
  | cons d tl ih =>
    intro _ rd host port out rest
    rw [List.cons_append, runInbound_cons _ _ _ (show (10 : Nat) < 13 by norm_num)]
    cases tl with
    | nil =>
      rw [List.nil_append]
      congr 1
    | cons d2 tl2 =>
      have hstep : inboundStep ⟨10, ((d :: d2 :: tl2).length : Int), rd, host, port, out, false⟩ d
          = ⟨10, ((d2 :: tl2).length : Int), rd ++ [d], host ++ [d], port, out, false⟩ := by
        simp only [inboundStep]
        rw [if_neg (show ¬ ((d :: d2 :: tl2).length : Int) - 1 = 0 from by
          push_cast [List.length_cons]; omega)]
        congr 1
        push_cast [List.length_cons]
        ring
      rw [hstep]
      rw [ih (by simp) (rd ++ [d]) (host ++ [d]) port out rest,
        ← List.append_cons rd d (d2 :: tl2), ← List.append_cons host d (d2 :: tl2)]

/-- State 11: the sixteen IPv6 bytes, appended to the request data
while the host accumulates colon-separated hex pairs. -/
theorem ipv6_phase : ∀ (bs : List Nat), bs ≠ [] →
    ∀ (rd host : List Nat) (port : Nat) (out rest : List Nat),
    ∃ host2,
      runInbound ⟨11, (bs.length : Int), rd, host, port, out, false⟩ (bs ++ rest)
        = runInbound ⟨12, 2, rd ++ bs, host2, port, out, false⟩ rest := by
  intro bs
  induction bs with
  | nil => intro h; exact absurd rfl h
  | cons b tl ih =>
    intro _ rd host port out rest
    rw [List.cons_append, runInbound_cons _ _ _ (show (11 : Nat) < 13 by norm_num)]
    cases tl with
    | nil =>
      refine ⟨host ++ hexPair b, ?_⟩
      rw [List.nil_append]
      congr 1
    | cons b2 tl2 =>
      by_cases hpar : (0 : Int) < ((b :: b2 :: tl2).length : Int) - 1
          ∧ (((b :: b2 :: tl2).length : Int) - 1) % 2 = 0
      · have hstep : inboundStep ⟨11, ((b :: b2 :: tl2).length : Int), rd, host, port, out, false⟩ b
            = ⟨11, ((b2 :: tl2).length : Int), rd ++ [b],
                host ++ hexPair b ++ [58], port, out, false⟩ := by
          simp only [inboundStep]
          rw [if_pos hpar]
          rw [if_neg (show ¬ ((b :: b2 :: tl2).length : Int) - 1 = 0 from by
            push_cast [List.length_cons]; omega)]
          congr 1
          push_cast [List.length_cons]
          ring
        rw [hstep]
        obtain ⟨host2, hrun⟩ :=
          ih (by simp) (rd ++ [b]) (host ++ hexPair b ++ [58]) port out rest
        exact ⟨host2, by rw [hrun, ← List.append_cons rd b (b2 :: tl2)]⟩
      · have hstep : inboundStep ⟨11, ((b :: b2 :: tl2).length : Int), rd, host, port, out, false⟩ b
            = ⟨11, ((b2 :: tl2).length : Int), rd ++ [b],
                host ++ hexPair b, port, out, false⟩ := by
          simp only [inboundStep]
          rw [if_neg hpar]
          rw [if_neg (show ¬ ((b :: b2 :: tl2).length : Int) - 1 = 0 from by
            push_cast [List.length_cons]; omega)]
          congr 1
          push_cast [List.length_cons]
          ring
        rw [hstep]
        obtain ⟨host2, hrun⟩ :=
          ih (by simp) (rd ++ [b]) (host ++ hexPair b) port out rest
        exact ⟨host2, by rw [hrun, ← List.append_cons rd b (b2 :: tl2)]⟩

/-- State 12: the two big-endian port bytes end the parse. -/
theorem port_phase (p1 p2 : Nat) (rd host : List Nat) (port : Nat)
    (out rest : List Nat) :
    runInbound ⟨12, 2, rd, host, port, out, false⟩ (p1 :: p2 :: rest)
      = (⟨13, 0, rd, host, (port * 256 + p1) * 256 + p2, out, false⟩, rest) := by
  rw [runInbound_cons _ _ _ (show (12 : Nat) < 13 by norm_num)]
  rw [show inboundStep ⟨12, 2, rd, host, port, out, false⟩ p1
      = ⟨12, 1, rd, host, port * 256 + p1, out, false⟩ from by norm_num [inboundStep]]
  rw [runInbound_cons _ _ _ (show (12 : Nat) < 13 by norm_num)]
  rw [show inboundStep ⟨12, 1, rd, host, port * 256 + p1, out, false⟩ p2
      = ⟨13, 0, rd, host, (port * 256 + p1) * 256 + p2, out, false⟩ from by
    norm_num [inboundStep]]
  exact runInbound_terminal _ (show ¬ (13 : Nat) < 13 by norm_num) rest

/-- The outbound re-encoding of a two-byte big-endian port value gives
back the original bytes. -/
theorem portBytes_encode (p1 p2 : Nat) (hp1 : p1 < 256) (hp2 : p2 < 256) :
    portBytes (p1 * 256 + p2) = [p1, p2] := by
  unfold portBytes
  have h1 : (p1 * 256 + p2) / 256 % 256 = p1 := by omega
  have h2 : (p1 * 256 + p2) % 256 = p2 := by omega
  rw [h1, h2]

/-- C4: for every well-formed CONNECT request (greeting with n > 0
method bytes, version 5, command 1, any reserved byte, ATYP 1, 3 or 4
with its address in wire form, where a domain address is a non-zero
length byte followed by that many bytes, and two port bytes), the
inbound parse succeeds consuming the whole input, captures RequestData
equal to exactly the reserved byte, the ATYP and the wire-form address
(the port bytes are not included), sets the destination port to the
big-endian value of the two port bytes, and RequestData followed by
the re-encoded port equals the original request minus version, command
and greeting. -/
theorem inbound_wellformed_parse (n : Nat) (hn : 0 < n) (ms : List Nat)
    (hms : ms.length = n) (rsv atyp : Nat) (addr : List Nat) (p1 p2 : Nat)
    (hp1 : p1 < 256) (hp2 : p2 < 256)
    (haddr : (atyp = 1 ∧ addr.length = 4)
      ∨ (atyp = 3 ∧ ∃ dom : List Nat, addr = dom.length :: dom
          ∧ 1 ≤ dom.length ∧ dom.length ≤ 255)
      ∨ (atyp = 4 ∧ addr.length = 16)) :
    (runInbound initInbound
        ([5, n] ++ ms ++ [5, 1, rsv, atyp] ++ addr ++ [p1, p2])).1.err = false
    ∧ (runInbound initInbound
        ([5, n] ++ ms ++ [5, 1, rsv, atyp] ++ addr ++ [p1, p2])).1.state = 13
    ∧ (runInbound initInbound
        ([5, n] ++ ms ++ [5, 1, rsv, atyp] ++ addr ++ [p1, p2])).2 = []
    ∧ (runInbound initInbound
        ([5, n] ++ ms ++ [5, 1, rsv, atyp] ++ addr ++ [p1, p2])).1.requestData
      = [rsv, atyp] ++ addr
    ∧ (runInbound initInbound
        ([5, n] ++ ms ++ [5, 1, rsv, atyp] ++ addr ++ [p1, p2])).1.port
      = p1 * 256 + p2
    ∧ (runInbound initInbound
        ([5, n] ++ ms ++ [5, 1, rsv, atyp] ++ addr ++ [p1, p2])).1.requestData
      ++ portBytes ((runInbound initInbound
        ([5, n] ++ ms ++ [5, 1, rsv, atyp] ++ addr ++ [p1, p2])).1.port)
      = [rsv, atyp] ++ addr ++ [p1, p2] := by
  suffices key : ∃ host2,
      runInbound initInbound ([5, n] ++ ms ++ [5, 1, rsv, atyp] ++ addr ++ [p1, p2])
        = (⟨13, 0, [rsv, atyp] ++ addr, host2, p1 * 256 + p2, [5, 0], false⟩, []) by
    obtain ⟨host2, hrun⟩ := key
    rw [hrun]
    refine ⟨rfl, rfl, rfl, rfl, rfl, ?_⟩
    show ([rsv, atyp] ++ addr) ++ portBytes (p1 * 256 + p2) = _
    rw [portBytes_encode p1 p2 hp1 hp2]
  have hne : ms ≠ [] := List.ne_nil_of_length_pos (by omega)
  have hinput : [5, n] ++ ms ++ [5, 1, rsv, atyp] ++ addr ++ [p1, p2]
      = 5 :: n :: (ms ++ (5 :: 1 :: rsv :: (atyp :: (addr ++ [p1, p2])))) := by
    simp
  rw [hinput]
  rw [runInbound_cons _ _ _ (show (0 : Nat) < 13 by norm_num)]
  rw [show inboundStep initInbound 5 = ⟨1, 0, [], [], 0, [], false⟩ from rfl]
  rw [runInbound_cons _ _ _ (show (1 : Nat) < 13 by norm_num)]
  rw [show inboundStep ⟨1, 0, [], [], 0, [], false⟩ n
      = ⟨2, (n : Int), [], [], 0, [], false⟩ from by
    simp only [inboundStep]
    rw [if_pos hn]]
  rw [show ((n : Int)) = ((ms.length : Int)) from by rw [hms]]
  rw [methods_phase ms hne [] [] 0 [] (5 :: 1 :: rsv :: (atyp :: (addr ++ [p1, p2])))]
  rw [List.nil_append]
  rw [request_head_phase rsv [] [] 0 [5, 0] (atyp :: (addr ++ [p1, p2]))]
  rw [List.nil_append]
  rcases haddr with ⟨h1, h4⟩ | ⟨h3, dom, hdom, hlen1, hlen255⟩ | ⟨hx, h16⟩
  · subst h1
    rw [runInbound_cons _ _ _ (show (7 : Nat) < 13 by norm_num)]
    rw [show inboundStep ⟨7, 0, [rsv], [], 0, [5, 0], false⟩ 1
        = ⟨8, 4, [rsv, 1], [], 0, [5, 0], false⟩ from by norm_num [inboundStep]]
    rw [show (4 : Int) = ((addr.length : Int)) from by rw [h4]; norm_num]
    obtain ⟨host2, hrun⟩ := ipv4_phase addr (List.ne_nil_of_length_pos (by omega))
      [rsv, 1] [] 0 [5, 0] [p1, p2]
    refine ⟨host2, ?_⟩
    rw [hrun, port_phase]
    simp
  · subst h3
    subst hdom
    rw [List.cons_append]
    rw [runInbound_cons _ _ _ (show (7 : Nat) < 13 by norm_num)]
    rw [show inboundStep ⟨7, 0, [rsv], [], 0, [5, 0], false⟩ 3
        = ⟨9, 0, [rsv, 3], [], 0, [5, 0], false⟩ from by norm_num [inboundStep]]
    rw [runInbound_cons _ _ _ (show (9 : Nat) < 13 by norm_num)]
    rw [show inboundStep ⟨9, 0, [rsv, 3], [], 0, [5, 0], false⟩ dom.length
        = ⟨10, (dom.length : Int), [rsv, 3, dom.length], [], 0, [5, 0], false⟩ from by
      norm_num [inboundStep]]
    rw [domain_phase dom (List.ne_nil_of_length_pos (by omega))
      [rsv, 3, dom.length] [] 0 [5, 0] [p1, p2]]
    rw [port_phase]
    simp
  · subst hx
    rw [runInbound_cons _ _ _ (show (7 : Nat) < 13 by norm_num)]
    rw [show inboundStep ⟨7, 0, [rsv], [], 0, [5, 0], false⟩ 4
        = ⟨11, 16, [rsv, 4], [], 0, [5, 0], false⟩ from by norm_num [inboundStep]]
    rw [show (16 : Int) = ((addr.length : Int)) from by rw [h16]; norm_num]
    obtain ⟨host2, hrun⟩ := ipv6_phase addr (List.ne_nil_of_length_pos (by omega))
      [rsv, 4] [] 0 [5, 0] [p1, p2]
    refine ⟨host2, ?_⟩
    rw [hrun, port_phase]
    simp

/-- Witness for C4 at a concrete domain-type request: greeting 05 01 00
then request 05 01 00 03, domain abc, port 443. -/
theorem inbound_wellformed_parse_witness :
    (runInbound initInbound [5, 1, 0, 5, 1, 0, 3, 3, 97, 98, 99, 1, 187]).1.requestData
      = [0, 3, 3, 97, 98, 99]
    ∧ (runInbound initInbound [5, 1, 0, 5, 1, 0, 3, 3, 97, 98, 99, 1, 187]).1.port
      = 443
    ∧ (runInbound initInbound [5, 1, 0, 5, 1, 0, 3, 3, 97, 98, 99, 1, 187]).1.err
      = false := by
  have h := inbound_wellformed_parse 1 (by norm_num) [0] rfl 0 3 [3, 97, 98, 99] 1 187
    (by norm_num) (by norm_num)
    (Or.inr (Or.inl ⟨rfl, [97, 98, 99], rfl, by norm_num, by norm_num⟩))
  refine ⟨?_, ?_, ?_⟩
  · have h4 := h.2.2.2.1
    simpa using h4
  · have h5 := h.2.2.2.2.1
    simpa using h5
  · have h1 := h.1
    simpa using h1

/-- A split never returns the empty segment list. -/
theorem splitSegsP_ne_nil (p : Nat → Bool) (l : List Nat) : splitSegsP p l ≠ [] := by
  cases l with
  | nil => simp [splitSegsP]
  | cons c rest =>
    unfold splitSegsP
    by_cases h : p c = true
    · rw [if_pos h]
      simp
    · rw [if_neg h]
      cases hs : splitSegsP p rest with
      | nil => simp
      | cons s ss => simp

/-- The boolean line-separator test agrees with the source condition. -/
theorem isLineSep_iff (c : Nat) : isLineSep c = true ↔ (c = 10 ∨ c = 13) := by
  simp [isLineSep]

/-- Prefixing with the empty buffer changes nothing on a non-empty
segment list. -/
theorem prependFirst_nil (X : List (List Nat)) (h : X ≠ []) :
    prependFirst [] X = X := by
  cases X with
  | nil => exact absurd rfl h
  | cons s ss => simp [prependFirst]

/-- The character loop of the ingest equals splitting on LF or CR,
discarding the final (unterminated) segment and empty segments and
lowercasing the survivors, prefixed by the running buffer. -/
theorem lineSplit_spec : ∀ (data temp : List Nat) (acc : List (List Nat)),
    lineSplit temp acc data
      = acc ++ (((prependFirst temp (splitSegsP isLineSep data)).dropLast).filter
          (fun l => !l.isEmpty)).map goToLower := by
  intro data
  induction data with
  | nil =>
    intro temp acc
    simp [lineSplit, splitSegsP, prependFirst]
  | cons c rest ih =>
    intro temp acc
    obtain ⟨s, ss, hss⟩ : ∃ s ss, splitSegsP isLineSep rest = s :: ss := by
      cases hx : splitSegsP isLineSep rest with
      | nil => exact absurd hx (splitSegsP_ne_nil _ _)
      | cons s ss => exact ⟨s, ss, rfl⟩
    by_cases hsep : c = 10 ∨ c = 13
    · have hsl : isLineSep c = true := (isLineSep_iff c).mpr hsep
      conv_lhs => rw [lineSplit]
      rw [if_pos hsep]
      conv_rhs => rw [splitSegsP]
      rw [if_pos hsl, hss]
      by_cases htemp : temp = []
      · rw [if_pos htemp, ih [] acc]
        subst htemp
        rw [hss, prependFirst_nil _ (by simp)]
        simp [prependFirst, List.dropLast_cons₂]
      · rw [if_neg htemp, ih [] (acc ++ [goToLower temp])]
        rw [hss, prependFirst_nil _ (by simp)]
        have hte : temp.isEmpty = false := by
          cases temp with
          | nil => exact absurd rfl htemp
          | cons a b => rfl
        simp [prependFirst, List.dropLast_cons₂, hte]
    · have hsl : ¬ isLineSep c = true := fun hc => hsep ((isLineSep_iff c).mp hc)
      conv_lhs => rw [lineSplit]
      rw [if_neg hsep]
      rw [ih (temp ++ [c]) acc]
      conv_rhs => rw [splitSegsP]
      rw [if_neg hsl, hss]
      simp [prependFirst, List.append_assoc]

/-- Lowercasing sends only the space character to a space. -/
theorem lowerChar_space_iff (c : Nat) : lowerChar c = 32 ↔ c = 32 := by
  unfold lowerChar
  split_ifs with h1 h2 <;> omega

/-- Left trimming commutes with lowercasing. -/
theorem trimLeftSpace_lower (l : List Nat) :
    trimLeftSpace (goToLower l) = goToLower (trimLeftSpace l) := by
  induction l with
  | nil => rfl
  | cons c rest ih =>
    show trimLeftSpace (lowerChar c :: goToLower rest) = _
    by_cases h : c = 32
    · subst h
      rw [show lowerChar 32 = 32 from rfl]
      show trimLeftSpace (32 :: goToLower rest) = goToLower (trimLeftSpace (32 :: rest))
      simp [trimLeftSpace, ih]
    · have h2 : lowerChar c ≠ 32 := fun hc => h ((lowerChar_space_iff c).mp hc)
      show _ = goToLower (trimLeftSpace (c :: rest))
      simp [trimLeftSpace, h, h2, goToLower]

/-- Trimming commutes with lowercasing, so the per-line processing of
the source (lowercase at flush time, then trim and lowercase again)
agrees with the specification order (lowercase, then trim). -/
theorem trim_lower_comm (l : List Nat) :
    trimSpace (goToLower l) = goToLower (trimSpace l) := by
  unfold trimSpace
  rw [show (goToLower l).reverse = goToLower l.reverse from
    (List.map_reverse lowerChar l).symm]
  rw [trimLeftSpace_lower l.reverse]
  rw [show (goToLower (trimLeftSpace l.reverse)).reverse
      = goToLower (trimLeftSpace l.reverse).reverse from
    (List.map_reverse lowerChar (trimLeftSpace l.reverse)).symm]
  rw [trimLeftSpace_lower]

/-- The per-line loop on panic-free non-empty lines appends exactly the
entries the specification describes. -/
theorem processLines_spec : ∀ (lines : List (List Nat)) (domains : List DomainEntry),
    (∀ l ∈ lines, l ≠ []) → (∀ l ∈ lines, trimSpace l ≠ []) →
    processLines domains lines
      = .ok (domains ++ lines.filterMap
          (fun l => (specHostOfLine l).map (fun h => (⟨h, 0⟩ : DomainEntry)))) := by
  intro lines
  induction lines with
  | nil =>
    intro domains _ _
    simp [processLines]
  | cons l rest ih =>
    intro domains hne htr
    have hl : l ≠ [] := hne l (List.mem_cons_self _ _)
    have hts : trimSpace l ≠ [] := htr l (List.mem_cons_self _ _)
    have htl : goToLower (trimSpace l) ≠ [] := by
      unfold goToLower
      rw [Ne, List.map_eq_nil_iff]
      exact hts
    have hnr : ∀ x ∈ rest, x ≠ [] := fun x hx => hne x (List.mem_cons_of_mem _ hx)
    have htrr : ∀ x ∈ rest, trimSpace x ≠ [] := fun x hx => htr x (List.mem_cons_of_mem _ hx)
    simp only [processLines]
    rw [if_neg hl, if_neg htl]
    by_cases hcm : (goToLower (trimSpace l)).headI = 35
    · have hmap : ((specHostOfLine l).map (fun h => (⟨h, 0⟩ : DomainEntry))) = none := by
        unfold specHostOfLine
        rw [trim_lower_comm l, if_neg htl, if_pos hcm]
        rfl
      rw [if_pos hcm, ih domains hnr htrr]
      simp only [List.filterMap_cons, hmap]
    · have hmap : ((specHostOfLine l).map (fun h => (⟨h, 0⟩ : DomainEntry)))
          = some ⟨(if 1 < (splitSegs 32 (goToLower (trimSpace l))).length
              then (splitSegs 32 (goToLower (trimSpace l))).getLastI
              else goToLower (trimSpace l)), 0⟩ := by
        unfold specHostOfLine
        rw [trim_lower_comm l, if_neg htl, if_neg hcm]
        rfl
      rw [if_neg hcm, ih _ hnr htrr]
      simp only [List.filterMap_cons, hmap]
      simp [List.append_assoc]

/-- The shared ingest body on panic-free data: the deduplicated old
entries plus the specification-described new entries, and the count of
flushed lines. -/
theorem ingestLines_spec (f : Filter) (data : List Nat)
    (hnp : ∀ l ∈ specLines data, trimSpace l ≠ []) :
    ingestLines f data
      = .ok ({ f with Domains := dedupEntries (f.Domains ++ specIngest data) },
          (specLines data).length) := by
  have hlines : lineSplit [] [] data = specLines data := by
    rw [lineSplit_spec data [] []]
    rw [prependFirst_nil _ (splitSegsP_ne_nil _ _)]
    rfl
  have hne : ∀ l ∈ specLines data, l ≠ [] := by
    intro l hl
    unfold specLines at hl
    obtain ⟨y, hy, rfl⟩ := List.mem_map.mp hl
    have h2 := (List.mem_filter.mp hy).2
    intro hc
    unfold goToLower at hc
    rw [List.map_eq_nil_iff] at hc
    subst hc
    simp at h2
  simp only [ingestLines]
  rw [hlines, processLines_spec (specLines data) f.Domains hne hnp]
  rfl

/-- C7 amended: line-format ingest (LoadListFile and LoadHTTP) splits
the input on LF or CR, discards empty segments and DISCARDS a final
segment not terminated by LF or CR (the source never flushes it); each
surviving line is lowercased, trimmed of ASCII spaces, skipped when its
first byte is the comment character, reduced to its last
space-separated field when there is more than one, and appended as an
entry with zero hits; then the whole sequence is deduplicated.  Stated
on inputs whose surviving lines do not trim to nothing, since such
lines panic (claim C10). -/
theorem lineIngest_amended (fs : List Nat → Option (List Nat)) (f : Filter)
    (file data : List Nat) (hfs : fs file = some data)
    (hnp : ∀ l ∈ specLines data, trimSpace l ≠ []) :
    Filter.LoadListFile fs f file
      = .ok ({ f with Domains := dedupEntries (f.Domains ++ specIngest data) },
          true, (specLines data).length)
    ∧ Filter.LoadHTTP fs f file
      = .ok ({ f with Domains := dedupEntries (f.Domains ++ specIngest data) },
          true, (specLines data).length) := by
  have hi := ingestLines_spec f data hnp
  constructor
  · simp only [Filter.LoadListFile, hfs]
    rw [hi]
  · simp only [Filter.LoadHTTP, hfs]
    rw [hi]

/-- Witness for the C7 amended theorem: the hosts-file style line
0.0.0.0 badhost.com terminated by LF yields the single entry
badhost.com with zero hits and a count of one flushed line. -/
theorem lineIngest_amended_witness :
    Filter.LoadListFile
        (fun _ => some [48, 46, 48, 46, 48, 46, 48, 32,
          98, 97, 100, 104, 111, 115, 116, 46, 99, 111, 109, 10])
        ⟨[], []⟩ [102]
      = .ok (⟨[⟨[98, 97, 100, 104, 111, 115, 116, 46, 99, 111, 109], 0⟩], []⟩,
          true, 1) := by
  have h := (lineIngest_amended
    (fun _ => some [48, 46, 48, 46, 48, 46, 48, 32,
      98, 97, 100, 104, 111, 115, 116, 46, 99, 111, 109, 10])
    ⟨[], []⟩ [102]
    [48, 46, 48, 46, 48, 46, 48, 32,
      98, 97, 100, 104, 111, 115, 116, 46, 99, 111, 109, 10]
    rfl (by decide)).1
  rw [h]
  rfl

/-- C7 (counterexample): the input badhost.com with no terminating LF
or CR is a surviving line by the claim, yet ingest returns success
with no entry appended and a count of zero: the trailing unterminated
segment never reaches the per-line processing. -/
theorem lineIngest_trailing_cex :
    Filter.LoadListFile
        (fun _ => some [98, 97, 100, 104, 111, 115, 116, 46, 99, 111, 109])
        ⟨[], []⟩ [102]
      = .ok (⟨[], []⟩, true, 0) := by
  rfl

/-- Left trimming erases an all-space string. -/
theorem trimLeftSpace_all_space : ∀ (l : List Nat), (∀ c ∈ l, c = 32) →
    trimLeftSpace l = [] := by
  intro l
  induction l with
  | nil => intro _; rfl
  | cons c rest ih =>
    intro h
    have hc : c = 32 := h c (List.mem_cons_self _ _)
    simp only [trimLeftSpace, if_pos hc]
    exact ih (fun x hx => h x (List.mem_cons_of_mem _ hx))

/-- Trimming erases an all-space string. -/
theorem trimSpace_all_space (l : List Nat) (h : ∀ c ∈ l, c = 32) :
    trimSpace l = [] := by
  unfold trimSpace
  rw [trimLeftSpace_all_space l.reverse
    (fun c hc => h c (List.mem_reverse.mp hc))]
  rfl

/-- On every line list containing a non-empty all-space line, the
per-line loop reaches the out-of-range index. -/
theorem processLines_panic : ∀ (lines : List (List Nat)) (domains : List DomainEntry),
    (∃ l ∈ lines, l ≠ [] ∧ ∀ c ∈ l, c = 32) →
    processLines domains lines = .error () := by
  intro lines
  induction lines with
  | nil =>
    intro domains h
    obtain ⟨l, hl, _⟩ := h
    exact absurd hl (List.not_mem_nil l)
  | cons l rest ih =>
    intro domains h
    simp only [processLines]
    by_cases hl0 : l = []
    · rw [if_pos hl0]
      apply ih
      obtain ⟨w, hw, hprop⟩ := h
      rcases List.mem_cons.mp hw with rfl | hw2
      · exact absurd hl0 hprop.1
      · exact ⟨w, hw2, hprop⟩
    · rw [if_neg hl0]
      by_cases ht : goToLower (trimSpace l) = []
      · rw [if_pos ht]
      · rw [if_neg ht]
        obtain ⟨w, hw, hprop⟩ := h
        rcases List.mem_cons.mp hw with rfl | hw2
        · exfalso
          apply ht
          rw [trimSpace_all_space w hprop.2]
          rfl
        · by_cases hcm : (goToLower (trimSpace l)).headI = 35
          · rw [if_pos hcm]
            exact ih _ ⟨w, hw2, hprop⟩
          · rw [if_neg hcm]
            exact ih _ ⟨w, hw2, hprop⟩

/-- C10: line-format ingest is not total: whenever the data contains a
LF/CR-terminated line of only ASCII spaces (a non-empty all-space
flushed segment), the trimmed line is empty and reading its first byte
is out of range, so LoadListFile and LoadHTTP panic instead of
skipping the line. -/
theorem lineIngest_panic (fs : List Nat → Option (List Nat)) (f : Filter)
    (file data : List Nat) (hfs : fs file = some data)
    (hsp : ∃ l ∈ lineSplit [] [] data, l ≠ [] ∧ ∀ c ∈ l, c = 32) :
    Filter.LoadListFile fs f file = .error ()
    ∧ Filter.LoadHTTP fs f file = .error () := by
  have herr : ingestLines f data = .error () := by
    simp only [ingestLines]
    rw [processLines_panic (lineSplit [] [] data) f.Domains hsp]
  constructor
  · simp only [Filter.LoadListFile, hfs]
    rw [herr]
  · simp only [Filter.LoadHTTP, hfs]
    rw [herr]

/-- Witness for C10: a single space followed by LF panics the ingest. -/
theorem lineIngest_panic_witness :
    Filter.LoadListFile (fun _ => some [32, 10]) ⟨[], []⟩ [102] = .error ()
    ∧ Filter.LoadHTTP (fun _ => some [32, 10]) ⟨[], []⟩ [102] = .error () :=
  lineIngest_panic (fun _ => some [32, 10]) ⟨[], []⟩ [102] [32, 10] rfl (by decide)

end Proxy
